import Mathlib

/-!
Shallow embedding of the batch download orchestrator in
`src/scripts/2-get_creatives.py` (the overlapping + single-retry variant),
together with proofs of the specified properties.

The filesystem is modelled as a predicate `String → Bool` (the result of
`os.path.exists` at the moment a probe runs); the external process launch is
modelled by a `ProcOutcome` record describing what `subprocess.run` would do
(raise on start, or return an exit status and captured output).
-/

namespace SpotAudio

/-- Configuration constant `BATCH_SIZE = 10` from the script. -/
def BATCH_SIZE : Nat := 10

/-- Configuration constant `BATCH_TIMEOUT = 60`. -/
def BATCH_TIMEOUT : Nat := 60

/-- Configuration constant `BATCH_START_DELAY = 10`. -/
def BATCH_START_DELAY : Nat := 10

/-- A well-formed job descriptor, as consumed by the orchestrator: one entry
of `data['creatives']` with all the fields the script reads. -/
structure Creative where
  aircheck_id : String
  creative_id : String
  creative_name : String
  station_id : String
  start_time : String
  end_time : String
  deriving DecidableEq, Repr

/-- Path separator used by `os.path.join` on the script's target platform. -/
def os_sep : String := "\\"

/-- `os.path.join(dir, file)` for a directory path not already ending in a
separator (the case the script exercises). -/
def os_path_join (dir file : String) : String := dir ++ os_sep ++ file

/-- The expected artifact path of a job:
`os.path.join(target_folder, f"{aircheck_id}_pcm.wav")`. -/
def pcm_file (target_folder aircheck_id : String) : String :=
  os_path_join target_folder (aircheck_id ++ "_pcm.wav")

/-- Slicing loop behind the batch split, driven by a fuel counter that is
initialised to the list length (each slice removes at least one element when
`B ≥ 1`, so the fuel never runs out). -/
def chunkBatchesAux (B : Nat) : Nat → List α → List (List α)
  | _, [] => []
  | 0, _ :: _ => []
  | fuel + 1, x :: xs => (x :: xs).take B :: chunkBatchesAux B fuel ((x :: xs).drop B)

/-- The batch split in `main`:
`batches = [creatives[i:i + BATCH_SIZE] for i in range(0, total_count, BATCH_SIZE)]`.
Each slice takes the next `B` elements; the parameter `B` is the configured
batch size (`BATCH_SIZE` in the script).  `B = 0` would make Python's
`range` raise, so the function returns `[]` there. -/
def chunkBatches (B : Nat) (l : List α) : List (List α) :=
  if B = 0 then [] else chunkBatchesAux B l.length l

theorem chunkBatchesAux_nil (B fuel : Nat) :
    chunkBatchesAux (α := α) B fuel [] = [] := by
  cases fuel <;> rfl

theorem chunkBatchesAux_fuel (B : Nat) (l : List α) (fuel : Nat)
    (hB : B ≠ 0) (hf : l.length ≤ fuel) :
    chunkBatchesAux B fuel l = chunkBatchesAux B l.length l := by
  cases l with
  | nil => simp [chunkBatchesAux_nil]
  | cons x xs =>
    cases fuel with
    | zero => simp at hf
    | succ fuel =>
      show (x :: xs).take B :: chunkBatchesAux B fuel ((x :: xs).drop B) = _
      have hlen : (x :: xs).length = xs.length + 1 := rfl
      rw [hlen]
      show _ = (x :: xs).take B :: chunkBatchesAux B xs.length ((x :: xs).drop B)
      congr 1
      have hfx : xs.length ≤ fuel := by
        simp only [List.length_cons] at hf
        omega
      have hdrop : ((x :: xs).drop B).length ≤ fuel := by
        simp only [List.length_drop, List.length_cons]
        omega
      have hdrop2 : ((x :: xs).drop B).length ≤ xs.length := by
        simp only [List.length_drop, List.length_cons]
        omega
      rw [chunkBatchesAux_fuel B _ fuel hB hdrop,
        chunkBatchesAux_fuel B _ xs.length hB hdrop2]
termination_by fuel
decreasing_by
  · omega
  · omega

theorem chunkBatches_nil (B : Nat) : chunkBatches (α := α) B [] = [] := by
  unfold chunkBatches
  cases B <;> simp [chunkBatchesAux_nil]

theorem chunkBatches_zero (l : List α) : chunkBatches 0 l = [] := by
  unfold chunkBatches; simp

theorem chunkBatches_cons (B : Nat) (l : List α) (hl : l ≠ []) (hB : B ≠ 0) :
    chunkBatches B l = l.take B :: chunkBatches B (l.drop B) := by
  unfold chunkBatches
  rw [if_neg hB, if_neg hB]
  cases l with
  | nil => exact absurd rfl hl
  | cons x xs =>
    show (x :: xs).take B :: chunkBatchesAux B xs.length ((x :: xs).drop B) = _
    congr 1
    apply chunkBatchesAux_fuel B _ xs.length hB
    simp only [List.length_drop]
    simp
    omega

/-- The concatenation of the batches is the input list. -/
theorem chunkBatches_flatten (B : Nat) (l : List α) (hB : B ≠ 0) :
    (chunkBatches B l).flatten = l := by
  by_cases hl : l = []
  · subst hl; simp [chunkBatches_nil]
  · rw [chunkBatches_cons B l hl hB]
    have ih := chunkBatches_flatten B (l.drop B) hB
    simp [ih]
termination_by l.length
decreasing_by
  have hlen : l.length ≠ 0 := fun hc => hl (List.eq_nil_of_length_eq_zero hc)
  simp [List.length_drop]
  omega

/-- The number of batches is `⌈N / B⌉`, computed as `(N + B - 1) / B`. -/
theorem chunkBatches_length (B : Nat) (l : List α) (hB : B ≠ 0) :
    (chunkBatches B l).length = (l.length + B - 1) / B := by
  by_cases hl : l = []
  · subst hl
    have h0 : (B - 1) / B = 0 := Nat.div_eq_of_lt (by omega)
    simp [chunkBatches_nil, h0]
  · rw [chunkBatches_cons B l hl hB]
    have ih := chunkBatches_length B (l.drop B) hB
    simp only [List.length_cons, ih, List.length_drop]
    have hlen : l.length ≠ 0 := fun hc => hl (List.eq_nil_of_length_eq_zero hc)
    rcases Nat.lt_or_ge l.length B with hlt | hge
    · have h1 : l.length - B = 0 := by omega
      rw [h1]
      have h2 : (l.length + B - 1) / B = 1 :=
        Nat.div_eq_of_lt_le (by omega) (by omega)
      have h0 : (0 + B - 1) / B = 0 := Nat.div_eq_of_lt (by omega)
      omega
    · have h1 : l.length - B + B - 1 = l.length - 1 := by omega
      have h2 : l.length + B - 1 = (l.length - 1) + B := by omega
      rw [h1, h2, Nat.add_div_right _ (Nat.pos_of_ne_zero hB)]
termination_by l.length
decreasing_by
  have hlen : l.length ≠ 0 := fun hc => hl (List.eq_nil_of_length_eq_zero hc)
  simp [List.length_drop]
  omega

/-- Every batch except possibly the last has size exactly `B`. -/
theorem chunkBatches_sizes (B : Nat) (l : List α) (hB : B ≠ 0) :
    ∀ b ∈ (chunkBatches B l).dropLast, b.length = B := by
  by_cases hl : l = []
  · subst hl; simp [chunkBatches_nil]
  · rw [chunkBatches_cons B l hl hB]
    intro b hb
    by_cases hrest : chunkBatches B (l.drop B) = []
    · rw [hrest] at hb; simp at hb
    · rw [List.dropLast_cons_of_ne_nil hrest] at hb
      rcases List.mem_cons.mp hb with heq | hmem
      · subst heq
        rw [List.length_take]
        have hdrop : l.drop B ≠ [] := by
          intro hc
          rw [hc, chunkBatches_nil] at hrest
          exact hrest rfl
        have : B < l.length := by
          have := List.length_pos.mpr hdrop
          simp [List.length_drop] at this
          omega
        omega
      · exact chunkBatches_sizes B (l.drop B) hB b hmem
termination_by l.length
decreasing_by
  have hlen : l.length ≠ 0 := fun hc => hl (List.eq_nil_of_length_eq_zero hc)
  simp [List.length_drop]
  omega

/-- The batch sizes sum to the input length. -/
theorem chunkBatches_sum (B : Nat) (l : List α) (hB : B ≠ 0) :
    ((chunkBatches B l).map List.length).sum = l.length := by
  have h := chunkBatches_flatten B l hB
  calc ((chunkBatches B l).map List.length).sum
      = (chunkBatches B l).flatten.length := (List.length_flatten _).symm
    _ = l.length := by rw [h]

/-- A point-in-time view of the filesystem: `fs path` is the result of
`os.path.exists(path)` at the moment a probe runs. -/
def FS : Type := String → Bool

/-- What `subprocess.run` would do for one invocation: either raise before
the process starts (e.g. executable missing), or complete and return an exit
status with captured output.  `run_single_getmedia` never reads the last
three fields; they are carried to state that fact. -/
structure ProcOutcome where
  raisesOnStart : Bool
  returncode : Int
  stdout : String
  stderr : String
  deriving DecidableEq, Repr

/-- `run_single_getmedia(aircheck_id, ini_folder)`: build the command, call
`subprocess.run` inside `try`, and return `aircheck_id`; any exception is
caught and turned into `None`.  The completed process object is discarded. -/
def run_single_getmedia (proc : ProcOutcome) (aircheck_id : String)
    (ini_folder : String) : Option String :=
  if proc.raisesOnStart then none else some aircheck_id

/-- `check_batch_success(batch_aircheck_ids, target_folder)`: walk the batch
in order and classify each id by whether `<id>_pcm.wav` exists in the target
folder; returns `(successful, failed)`. -/
def check_batch_success (fs : FS) (batch_aircheck_ids : List String)
    (target_folder : String) : List String × List String :=
  match batch_aircheck_ids with
  | [] => ([], [])
  | aircheck_id :: rest =>
    let r := check_batch_success fs rest target_folder
    if fs (pcm_file target_folder aircheck_id)
    then (aircheck_id :: r.1, r.2)
    else (r.1, aircheck_id :: r.2)

theorem check_batch_success_eq (fs : FS) (ids : List String) (target : String) :
    check_batch_success fs ids target =
      (ids.filter (fun i => fs (pcm_file target i)),
       ids.filter (fun i => !fs (pcm_file target i))) := by
  induction ids with
  | nil => rfl
  | cons a rest ih =>
    simp only [check_batch_success, ih, List.filter_cons]
    by_cases h : fs (pcm_file target a) <;> simp [h]

/-- `delayed_batch_check_and_log`: after the bounded wait on the batch's
futures, classify every job of the batch with `check_batch_success` and
extend the shared `all_successful` / `all_failed` lists.  The `futures`
argument carries the settled return values of the batch's
`run_single_getmedia` calls; the function only waits on them and never reads
them. -/
def delayed_batch_check_and_log (fs : FS) (batch_creatives : List Creative)
    (futures : List (Option String)) (all_successful all_failed : List String)
    (target_folder : String) : List String × List String :=
  let batch_aircheck_ids := batch_creatives.map (fun c => c.aircheck_id)
  let r := check_batch_success fs batch_aircheck_ids target_folder
  (all_successful ++ r.1, all_failed ++ r.2)

/-- The work one batch contributes to the shared lists: submit its jobs to a
fresh pool (producing the futures) and let its Completion Watcher classify
and append.  Each watcher's pair of `extend` calls is an atomic append in
CPython.  `procEnv id` describes what `subprocess.run` does for job `id`. -/
def batch_step (fs : FS) (procEnv : String → ProcOutcome)
    (target_folder ini_folder : String) (agg : List String × List String)
    (batch : List Creative) : List String × List String :=
  let futures := batch.map
    (fun c => run_single_getmedia (procEnv c.aircheck_id) c.aircheck_id ini_folder)
  delayed_batch_check_and_log fs batch futures agg.1 agg.2 target_folder

theorem batch_step_eq (fs : FS) (procEnv : String → ProcOutcome)
    (target_folder ini_folder : String) (s f : List String) (b : List Creative) :
    batch_step fs procEnv target_folder ini_folder (s, f) b =
      (s ++ (b.map (fun c => c.aircheck_id)).filter
          (fun i => fs (pcm_file target_folder i)),
       f ++ (b.map (fun c => c.aircheck_id)).filter
          (fun i => !fs (pcm_file target_folder i))) := by
  simp [batch_step, delayed_batch_check_and_log, check_batch_success_eq]

/-- The main batch pass of `main`: split into batches and fold every batch's
contribution into the shared `all_successful` / `all_failed` lists.  The
fold is taken in batch order; any interleaving gives the same multiset, see
the schedule model below. -/
def run_main_pass (fs : FS) (procEnv : String → ProcOutcome)
    (creatives : List Creative) (target_folder ini_folder : String) :
    List String × List String :=
  (chunkBatches BATCH_SIZE creatives).foldl
    (batch_step fs procEnv target_folder ini_folder) ([], [])

theorem run_main_pass_foldl (fs : FS) (procEnv : String → ProcOutcome)
    (target_folder ini_folder : String) (bs : List (List Creative))
    (s f : List String) :
    bs.foldl (batch_step fs procEnv target_folder ini_folder) (s, f) =
    (s ++ (bs.flatten.map (fun c => c.aircheck_id)).filter
        (fun i => fs (pcm_file target_folder i)),
     f ++ (bs.flatten.map (fun c => c.aircheck_id)).filter
        (fun i => !fs (pcm_file target_folder i))) := by
  induction bs generalizing s f with
  | nil => simp
  | cons b rest ih =>
    rw [List.foldl_cons, batch_step_eq, ih]
    simp [List.append_assoc]

/-- The main pass classifies every job by the Artifact Probe alone:
`all_successful` is exactly the jobs whose artifact exists, `all_failed`
exactly those whose artifact is absent, in input order. -/
theorem run_main_pass_eq (fs : FS) (procEnv : String → ProcOutcome)
    (creatives : List Creative) (target_folder ini_folder : String) :
    run_main_pass fs procEnv creatives target_folder ini_folder =
      ((creatives.map (fun c => c.aircheck_id)).filter
          (fun i => fs (pcm_file target_folder i)),
       (creatives.map (fun c => c.aircheck_id)).filter
          (fun i => !fs (pcm_file target_folder i))) := by
  unfold run_main_pass
  rw [run_main_pass_foldl]
  rw [chunkBatches_flatten BATCH_SIZE creatives (by decide)]
  simp

/-- `retry_failed_creatives(failed_creatives, ini_folder, target_folder)`:
serially, for each failed creative, re-launch, sleep 2 seconds, and re-probe
the artifact.  Returns the pair `(retry_successful, still_failed)` of the
function's two result lists (the source returns `still_failed` and prints
`retry_successful`).  `fs2 path` is the probe result at the job's own
re-check time. -/
def retry_failed_creatives (fs2 : FS) (failed_creatives : List Creative)
    (ini_folder target_folder : String) : List String × List Creative :=
  match failed_creatives with
  | [] => ([], [])
  | creative :: rest =>
    let r := retry_failed_creatives fs2 rest ini_folder target_folder
    if fs2 (pcm_file target_folder creative.aircheck_id)
    then (creative.aircheck_id :: r.1, r.2)
    else (r.1, creative :: r.2)

theorem retry_failed_creatives_eq (fs2 : FS) (failed : List Creative)
    (ini target : String) :
    retry_failed_creatives fs2 failed ini target =
      ((failed.filter (fun c => fs2 (pcm_file target c.aircheck_id))).map
          (fun c => c.aircheck_id),
       failed.filter (fun c => !fs2 (pcm_file target c.aircheck_id))) := by
  induction failed with
  | nil => rfl
  | cons c rest ih =>
    simp only [retry_failed_creatives, ih, List.filter_cons]
    by_cases h : fs2 (pcm_file target c.aircheck_id) <;> simp [h]

/-- The post-pass of `main` (lines 435–453): rebuild `failed_creatives` from
`all_failed`, run the retry pass, and extend `all_successful` with
`list(set(failed ids) - set(still-failed ids))`.  Python's `set` iterates in
an unspecified order; the model fixes the deterministic representative that
keeps first-occurrence order (`dedup` then filter), which agrees with the
set difference as a multiset.  Returns the final
`(all_successful, still_failed)` used by the summary. -/
def final_outcomes (fs fs2 : FS) (procEnv : String → ProcOutcome)
    (creatives : List Creative) (target_folder ini_folder : String) :
    List String × List Creative :=
  let mp := run_main_pass fs procEnv creatives target_folder ini_folder
  let all_failed := mp.2
  let failed_creatives := creatives.filter (fun c => all_failed.contains c.aircheck_id)
  let still_failed := (retry_failed_creatives fs2 failed_creatives ini_folder target_folder).2
  let retry_successful_ids :=
    ((failed_creatives.map (fun c => c.aircheck_id)).dedup).filter
      (fun i => !((still_failed.map (fun c => c.aircheck_id)).contains i))
  (mp.1 ++ retry_successful_ids, still_failed)

theorem map_filter_comp (f : Creative → String) (p : String → Bool)
    (l : List Creative) :
    (l.filter (fun c => p (f c))).map f = (l.map f).filter p := by
  induction l with
  | nil => rfl
  | cons c rest ih => by_cases h : p (f c) <;> simp [List.filter_cons, h, ih]

/-- `failed_creatives` (line 436–439): the creatives whose id landed in
`all_failed` are, ids being unique, exactly those whose artifact was absent
at their batch check. -/
theorem failed_creatives_eq (fs : FS) (creatives : List Creative)
    (target_folder : String) (failedIds : List String)
    (hf : failedIds = (creatives.map (fun c => c.aircheck_id)).filter
        (fun i => !fs (pcm_file target_folder i))) :
    creatives.filter (fun c => failedIds.contains c.aircheck_id) =
      creatives.filter (fun c => !fs (pcm_file target_folder c.aircheck_id)) := by
  subst hf
  apply List.filter_congr
  intro c hc
  have hmem : c.aircheck_id ∈ creatives.map (fun c => c.aircheck_id) :=
    List.mem_map_of_mem _ hc
  by_cases h : fs (pcm_file target_folder c.aircheck_id) <;>
    simp [List.elem_eq_mem, List.mem_filter, hmem, h]

/-- The fully evaluated final outcome pair: with unique ids, the final
success list is the main-pass successes followed by the retry successes,
and the final failure list is the creatives failing both probes. -/
theorem final_outcomes_eq (fs fs2 : FS) (procEnv : String → ProcOutcome)
    (creatives : List Creative) (target_folder ini_folder : String)
    (hNodup : (creatives.map (fun c => c.aircheck_id)).Nodup) :
    final_outcomes fs fs2 procEnv creatives target_folder ini_folder =
      ((creatives.map (fun c => c.aircheck_id)).filter
          (fun i => fs (pcm_file target_folder i)) ++
        ((creatives.map (fun c => c.aircheck_id)).filter
          (fun i => !fs (pcm_file target_folder i))).filter
          (fun i => fs2 (pcm_file target_folder i)),
       (creatives.filter (fun c => !fs (pcm_file target_folder c.aircheck_id))).filter
          (fun c => !fs2 (pcm_file target_folder c.aircheck_id))) := by
  unfold final_outcomes
  rw [run_main_pass_eq]
  simp only
  rw [failed_creatives_eq fs creatives target_folder _ rfl]
  rw [retry_failed_creatives_eq]
  simp only [Prod.mk.injEq]
  refine ⟨?_, trivial⟩
  congr 1
  have hmapfail := map_filter_comp (fun c => c.aircheck_id)
    (fun i => !fs (pcm_file target_folder i)) creatives
  have hmapstill := map_filter_comp (fun c => c.aircheck_id)
    (fun i => !fs2 (pcm_file target_folder i))
    (creatives.filter (fun c => !fs (pcm_file target_folder c.aircheck_id)))
  rw [hmapstill, hmapfail]
  have hnodupFail :
      ((creatives.map (fun c => c.aircheck_id)).filter
        (fun i => !fs (pcm_file target_folder i))).Nodup := hNodup.filter _
  rw [List.Nodup.dedup hnodupFail]
  apply List.filter_congr
  intro i hi
  have hi2 := List.mem_filter.mp hi
  by_cases h : fs2 (pcm_file target_folder i) <;>
    simp [List.elem_eq_mem, List.mem_filter, hi2.1, hi2.2, h]

/-- One action performed by the scheduling thread of `main` or by the serial
retry loop, in program order.  Launch calls performed by worker threads are
triggered by the corresponding `submitJob` event. -/
inductive Ev where
  | writeIni (aircheck_id : String)
  | submitJob (batch_num : Nat) (aircheck_id : String)
  | staggerSleep (seconds : Nat)
  | joinWatchers
  | shutdownExecutors
  | retryLaunch (aircheck_id : String)
  | retrySleep (seconds : Nat)
  | retryProbe (aircheck_id : String)
  deriving DecidableEq, Repr

def Ev.isWriteIni : Ev → Bool
  | .writeIni _ => true
  | _ => false

def Ev.isSubmitJob : Ev → Bool
  | .submitJob _ _ => true
  | _ => false

def Ev.isJoinWatchers : Ev → Bool
  | .joinWatchers => true
  | _ => false

def Ev.isRetryLaunch : Ev → Bool
  | .retryLaunch _ => true
  | _ => false

def Ev.isRetryProbe : Ev → Bool
  | .retryProbe _ => true
  | _ => false

/-- `process_batch`: the scheduler submits every job of the batch, in batch
order, to the batch's fresh worker pool. -/
def batch_submit_events (batch_num : Nat) (batch : List Creative) : List Ev :=
  batch.map (fun c => Ev.submitJob batch_num c.aircheck_id)

/-- The batch loop of `main` (lines 413–424): submit each batch, and sleep
the stagger delay after every batch but the last. -/
def sched_events : Nat → List (List Creative) → List Ev
  | _, [] => []
  | n, [b] => batch_submit_events n b
  | n, b :: rest =>
    batch_submit_events n b ++
      Ev.staggerSleep BATCH_START_DELAY :: sched_events (n + 1) rest

/-- The retry loop of `retry_failed_creatives`: for each failed creative, in
order, re-launch, `time.sleep(2)`, then re-probe. -/
def retry_events : List Creative → List Ev
  | [] => []
  | c :: rest =>
    Ev.retryLaunch c.aircheck_id :: Ev.retrySleep 2 ::
      Ev.retryProbe c.aircheck_id :: retry_events rest

/-- The ordered actions of `main`'s driving thread: write every ini file,
run the batch loop, join all watcher threads, shut the pools down, then run
the retry loop over the jobs recorded failed by the main pass. -/
def main_trace (fs : FS) (procEnv : String → ProcOutcome)
    (creatives : List Creative) (target_folder ini_folder : String) : List Ev :=
  (creatives.map (fun c => Ev.writeIni c.aircheck_id)) ++
  sched_events 1 (chunkBatches BATCH_SIZE creatives) ++
  Ev.joinWatchers :: Ev.shutdownExecutors ::
    retry_events (creatives.filter
      (fun c => (run_main_pass fs procEnv creatives target_folder ini_folder).2.contains
        c.aircheck_id))

theorem sched_events_no_writeIni (n : Nat) (bs : List (List Creative)) :
    ∀ e ∈ sched_events n bs, e.isWriteIni = false := by
  induction bs generalizing n with
  | nil => intro e he; simp [sched_events] at he
  | cons b rest ih =>
    intro e he
    cases rest with
    | nil =>
      simp only [sched_events, batch_submit_events, List.mem_map] at he
      obtain ⟨c, _, rfl⟩ := he
      rfl
    | cons b2 rest2 =>
      simp only [sched_events, batch_submit_events, List.mem_append,
        List.mem_cons, List.mem_map] at he
      rcases he with ⟨c, _, rfl⟩ | rfl | he
      · rfl
      · rfl
      · exact ih (n + 1) e (by simpa [sched_events] using he)

theorem sched_events_no_retryLaunch (n : Nat) (bs : List (List Creative)) :
    ∀ e ∈ sched_events n bs, e.isRetryLaunch = false := by
  induction bs generalizing n with
  | nil => intro e he; simp [sched_events] at he
  | cons b rest ih =>
    intro e he
    cases rest with
    | nil =>
      simp only [sched_events, batch_submit_events, List.mem_map] at he
      obtain ⟨c, _, rfl⟩ := he
      rfl
    | cons b2 rest2 =>
      simp only [sched_events, batch_submit_events, List.mem_append,
        List.mem_cons, List.mem_map] at he
      rcases he with ⟨c, _, rfl⟩ | rfl | he
      · rfl
      · rfl
      · exact ih (n + 1) e (by simpa [sched_events] using he)

theorem retry_events_shape (l : List Creative) :
    retry_events l = (l.map (fun c =>
      [Ev.retryLaunch c.aircheck_id, Ev.retrySleep 2,
       Ev.retryProbe c.aircheck_id])).flatten := by
  induction l with
  | nil => rfl
  | cons c rest ih => simp [retry_events, ih]

theorem retry_events_no_writeIni (l : List Creative) :
    ∀ e ∈ retry_events l, e.isWriteIni = false := by
  intro e he
  rw [retry_events_shape] at he
  simp only [List.mem_flatten, List.mem_map] at he
  obtain ⟨evs, ⟨c, _, rfl⟩, hmem⟩ := he
  simp only [List.mem_cons, List.not_mem_nil, or_false] at hmem
  rcases hmem with rfl | rfl | rfl <;> rfl

theorem retry_events_no_submitJob (l : List Creative) :
    ∀ e ∈ retry_events l, e.isSubmitJob = false := by
  intro e he
  rw [retry_events_shape] at he
  simp only [List.mem_flatten, List.mem_map] at he
  obtain ⟨evs, ⟨c, _, rfl⟩, hmem⟩ := he
  simp only [List.mem_cons, List.not_mem_nil, or_false] at hmem
  rcases hmem with rfl | rfl | rfl <;> rfl

/-- If events satisfying `P` occur only in the front part and events
satisfying `Q` occur only in the back part, every `P` index precedes every
`Q` index. -/
theorem index_order_of_split {β : Type} (P Q : β → Bool) (A B : List β)
    (hPB : ∀ e ∈ B, P e = false) (hQA : ∀ e ∈ A, Q e = false)
    (i j : Nat) (e1 e2 : β)
    (h1 : (A ++ B)[i]? = some e1) (h2 : (A ++ B)[j]? = some e2)
    (hPi : P e1 = true) (hQj : Q e2 = true) : i < j := by
  have hiA : i < A.length := by
    by_contra hge
    push_neg at hge
    have hlt : i < (A ++ B).length := by
      by_contra habs
      push_neg at habs
      rw [List.getElem?_eq_none habs] at h1
      exact Option.noConfusion h1
    have hmem : e1 ∈ B := by
      have := List.getElem?_eq_getElem hlt
      rw [this] at h1
      have he : (A ++ B)[i] = e1 := Option.some.inj h1
      rw [List.getElem_append_right hge] at he
      rw [← he]
      exact List.getElem_mem _
    rw [hPB _ hmem] at hPi
    exact Bool.false_ne_true hPi
  have hjA : A.length ≤ j := by
    by_contra hlt
    push_neg at hlt
    have hjlt : j < (A ++ B).length := by
      rw [List.length_append]
      omega
    have hmem : e2 ∈ A := by
      have := List.getElem?_eq_getElem hjlt
      rw [this] at h2
      have he : (A ++ B)[j] = e2 := Option.some.inj h2
      rw [List.getElem_append_left hlt] at he
      rw [← he]
      exact List.getElem_mem _
    rw [hQA _ hmem] at hQj
    exact Bool.false_ne_true hQj
  omega

/-- One mutating call on the shared result lists.  CPython's `list.extend`
is a single atomic bytecode-level operation (the GIL serializes it), so each
call is one indivisible transition of the aggregator state. -/
inductive AggOp where
  | extendSuccessful (ids : List String)
  | extendFailed (ids : List String)
  deriving DecidableEq, Repr

/-- The entries an operation appends. -/
def AggOp.contents : AggOp → List String
  | .extendSuccessful l => l
  | .extendFailed l => l

/-- One atomic aggregator transition. -/
def apply_agg_op (agg : List String × List String) : AggOp → List String × List String
  | .extendSuccessful l => (agg.1 ++ l, agg.2)
  | .extendFailed l => (agg.1, agg.2 ++ l)

/-- Run a whole schedule of aggregator calls from the empty state. -/
def run_schedule (ops : List AggOp) : List String × List String :=
  ops.foldl apply_agg_op ([], [])

/-- The two aggregator calls one Completion Watcher makes for its batch. -/
def watcher_ops (fs : FS) (batch : List Creative) (target_folder : String) :
    List AggOp :=
  let r := check_batch_success fs (batch.map (fun c => c.aircheck_id)) target_folder
  [AggOp.extendSuccessful r.1, AggOp.extendFailed r.2]

theorem run_schedule_foldl (ops : List AggOp) (s f : List String) :
    List.Perm ((ops.foldl apply_agg_op (s, f)).1 ++ (ops.foldl apply_agg_op (s, f)).2)
      ((s ++ f) ++ (ops.map AggOp.contents).flatten) := by
  induction ops generalizing s f with
  | nil => simp
  | cons op rest ih =>
    cases op with
    | extendSuccessful l =>
      simp only [List.foldl_cons, apply_agg_op, List.map_cons, List.flatten_cons,
        AggOp.contents]
      refine (ih (s ++ l) f).trans ?_
      have h1 : List.Perm ((s ++ l) ++ f) ((s ++ f) ++ l) := by
        rw [List.append_assoc, List.append_assoc]
        exact List.Perm.append_left s List.perm_append_comm
      refine (h1.append_right _).trans ?_
      rw [List.append_assoc]
    | extendFailed l =>
      simp only [List.foldl_cons, apply_agg_op, List.map_cons, List.flatten_cons,
        AggOp.contents]
      refine (ih s (f ++ l)).trans ?_
      have h1 : List.Perm (s ++ (f ++ l)) ((s ++ f) ++ l) := by
        rw [List.append_assoc]
      refine (h1.append_right _).trans ?_
      rw [List.append_assoc]

/-- The aggregator content after any schedule is the multiset union of what
the operations appended: nothing is lost, nothing is invented. -/
theorem run_schedule_content (ops : List AggOp) :
    List.Perm ((run_schedule ops).1 ++ (run_schedule ops).2)
      ((ops.map AggOp.contents).flatten) := by
  have h := run_schedule_foldl ops [] []
  simpa using h

/-- The entries one watcher contributes are exactly its batch's job ids. -/
theorem watcher_ops_contents (fs : FS) (batch : List Creative)
    (target_folder : String) :
    List.Perm ((watcher_ops fs batch target_folder).map AggOp.contents).flatten
      (batch.map (fun c => c.aircheck_id)) := by
  simp only [watcher_ops, check_batch_success_eq, List.map_cons, List.map_nil,
    List.flatten_cons, List.flatten_nil, AggOp.contents, List.append_nil]
  exact List.filter_append_perm _ _

/-- A raw job object straight out of the JSON file: any key may be absent.
`none` models a missing key; Python raises `KeyError` on access. -/
structure RawCreative where
  aircheck_id : Option String
  station_id : Option String
  start_time : Option String
  end_time : Option String
  creative_id : Option String
  creative_name : Option String
  deriving DecidableEq, Repr

/-- `create_ini_file` on a raw JSON object: the subscript accesses
`creative["aircheck_id"]`, `creative["station_id"]`, `creative["start_time"]`,
`creative["end_time"]` run in that order and raise `KeyError` on a missing
key; on success the function returns the ini filename. -/
def create_ini_file (c : RawCreative) : Except String String :=
  match c.aircheck_id with
  | none => Except.error "KeyError: aircheck_id"
  | some a =>
    match c.station_id with
    | none => Except.error "KeyError: station_id"
    | some _ =>
      match c.start_time with
      | none => Except.error "KeyError: start_time"
      | some _ =>
        match c.end_time with
        | none => Except.error "KeyError: end_time"
        | some _ => Except.ok (a ++ ".ini")

/-- The ini-creation loop of `main` (lines 398–401): the first raised
`KeyError` escapes the loop. -/
def create_all_ini_files : List RawCreative → Except String (List String)
  | [] => Except.ok []
  | c :: rest => do
    let f ← create_ini_file c
    let rest2 ← create_all_ini_files rest
    Except.ok (f :: rest2)

/-- `main`'s load stage up to the batch split: write every ini file, then
split the job list into batches.  An exception anywhere here is caught only
by the top-level `except Exception` handler, which prints the error and
returns — no batch plan exists in that case. -/
def load_and_plan (creatives : List RawCreative) :
    Except String (List (List RawCreative)) := do
  let _ ← create_all_ini_files creatives
  Except.ok (chunkBatches BATCH_SIZE creatives)

/-- A raw descriptor carries every field `create_ini_file` reads. -/
def wellFormedRaw (c : RawCreative) : Bool :=
  c.aircheck_id.isSome && c.station_id.isSome &&
    c.start_time.isSome && c.end_time.isSome

theorem create_ini_file_ok_iff (c : RawCreative) :
    (∃ v, create_ini_file c = Except.ok v) ↔ wellFormedRaw c = true := by
  unfold create_ini_file wellFormedRaw
  cases c.aircheck_id <;> cases c.station_id <;>
    cases c.start_time <;> cases c.end_time <;> simp

theorem create_all_ini_files_error (creatives : List RawCreative)
    (h : ∃ c ∈ creatives, wellFormedRaw c = false) :
    ∃ msg, create_all_ini_files creatives = Except.error msg := by
  induction creatives with
  | nil => obtain ⟨c, hc, _⟩ := h; simp at hc
  | cons c rest ih =>
    obtain ⟨d, hd, hbad⟩ := h
    rcases List.mem_cons.mp hd with rfl | hmem
    · cases hok : create_ini_file d with
      | error msg => exact ⟨msg, by simp [create_all_ini_files, hok, Bind.bind, Except.bind]⟩
      | ok v =>
        have : wellFormedRaw d = true := (create_ini_file_ok_iff d).mp ⟨v, hok⟩
        rw [this] at hbad
        exact absurd hbad (by simp)
    · obtain ⟨msg, hmsg⟩ := ih ⟨d, hmem, hbad⟩
      cases hok : create_ini_file c with
      | error m => exact ⟨m, by simp [create_all_ini_files, hok, Bind.bind, Except.bind]⟩
      | ok v => exact ⟨msg, by simp [create_all_ini_files, hok, hmsg, Bind.bind, Except.bind]⟩

theorem create_all_ini_files_ok (creatives : List RawCreative)
    (h : ∀ c ∈ creatives, wellFormedRaw c = true) :
    ∃ files, create_all_ini_files creatives = Except.ok files := by
  induction creatives with
  | nil => exact ⟨[], rfl⟩
  | cons c rest ih =>
    obtain ⟨v, hv⟩ := (create_ini_file_ok_iff c).mpr (h c (List.mem_cons_self c rest))
    obtain ⟨files, hfiles⟩ := ih (fun d hd => h d (List.mem_cons_of_mem c hd))
    exact ⟨v :: files, by simp [create_all_ini_files, hv, hfiles, Bind.bind, Except.bind]⟩

/-- What `main` prints at the end of a completed run (lines 455–469): the
three counts, the enumerated failures `still_failed[:5]` printed as
`aircheck_id | creative_name`, and the `"... and N more"` line when more
than five remain. -/
structure DownloadSummary where
  total : Nat
  succeeded : Nat
  failed_after_retry : Nat
  listed_failures : List (String × String)
  more_count : Nat
  deriving DecidableEq, Repr

def print_summary (total_count : Nat) (all_successful : List String)
    (still_failed : List Creative) : DownloadSummary :=
  { total := total_count
    succeeded := all_successful.length
    failed_after_retry := still_failed.length
    listed_failures := (still_failed.take 5).map
      (fun c => (c.aircheck_id, c.creative_name))
    more_count := if 5 < still_failed.length then still_failed.length - 5 else 0 }

/-- The summary of a full run of `main`. -/
def run_summary (fs fs2 : FS) (procEnv : String → ProcOutcome)
    (creatives : List Creative) (target_folder ini_folder : String) :
    DownloadSummary :=
  let r := final_outcomes fs fs2 procEnv creatives target_folder ini_folder
  print_summary creatives.length r.1 r.2

/-- With unique ids, the final success ids together with the final failure
ids are a permutation of the input ids. -/
theorem final_outcomes_perm (fs fs2 : FS) (procEnv : String → ProcOutcome)
    (creatives : List Creative) (target_folder ini_folder : String)
    (hNodup : (creatives.map (fun c => c.aircheck_id)).Nodup) :
    List.Perm
      ((final_outcomes fs fs2 procEnv creatives target_folder ini_folder).1 ++
        (final_outcomes fs fs2 procEnv creatives target_folder ini_folder).2.map
          (fun c => c.aircheck_id))
      (creatives.map (fun c => c.aircheck_id)) := by
  rw [final_outcomes_eq fs fs2 procEnv creatives target_folder ini_folder hNodup]
  simp only
  rw [map_filter_comp (fun c => c.aircheck_id)
      (fun i => !fs2 (pcm_file target_folder i)),
    map_filter_comp (fun c => c.aircheck_id)
      (fun i => !fs (pcm_file target_folder i))]
  rw [List.append_assoc]
  have h1 : List.Perm
      (((creatives.map (fun c => c.aircheck_id)).filter
          (fun i => !fs (pcm_file target_folder i))).filter
          (fun i => fs2 (pcm_file target_folder i)) ++
        ((creatives.map (fun c => c.aircheck_id)).filter
          (fun i => !fs (pcm_file target_folder i))).filter
          (fun i => !fs2 (pcm_file target_folder i)))
      ((creatives.map (fun c => c.aircheck_id)).filter
        (fun i => !fs (pcm_file target_folder i))) :=
    List.filter_append_perm _ _
  have h2 : List.Perm
      ((creatives.map (fun c => c.aircheck_id)).filter
          (fun i => fs (pcm_file target_folder i)) ++
        (creatives.map (fun c => c.aircheck_id)).filter
          (fun i => !fs (pcm_file target_folder i)))
      (creatives.map (fun c => c.aircheck_id)) :=
    List.filter_append_perm _ _
  exact (List.Perm.append_left _ h1).trans h2

/-- With unique ids, no id appears twice among the final outcomes. -/
theorem final_outcomes_nodup (fs fs2 : FS) (procEnv : String → ProcOutcome)
    (creatives : List Creative) (target_folder ini_folder : String)
    (hNodup : (creatives.map (fun c => c.aircheck_id)).Nodup) :
    ((final_outcomes fs fs2 procEnv creatives target_folder ini_folder).1 ++
      (final_outcomes fs fs2 procEnv creatives target_folder ini_folder).2.map
        (fun c => c.aircheck_id)).Nodup :=
  ((final_outcomes_perm fs fs2 procEnv creatives target_folder
    ini_folder hNodup).nodup_iff).mpr hNodup

/-- A job descriptor with the field shapes the JSON metadata uses. -/
def mkCreative (i nm : String) : Creative :=
  { aircheck_id := i
    creative_id := i
    creative_name := nm
    station_id := "1001"
    start_time := "2025-10-18 04:47:22.000"
    end_time := "2025-10-18 04:47:52.000" }

def sampleCreatives : List Creative :=
  [mkCreative "12345" "Ad One", mkCreative "23456" "Ad Two",
   mkCreative "34567" "Ad Three"]

def sampleCreatives6 : List Creative :=
  [mkCreative "id1" "name1", mkCreative "id2" "name2", mkCreative "id3" "name3",
   mkCreative "id4" "name4", mkCreative "id5" "name5", mkCreative "id6" "name6"]

/-- A filesystem on which no artifact ever exists. -/
def fsEmpty : FS := fun _ => false

/-- A filesystem on which every artifact exists. -/
def fsFull : FS := fun _ => true

/-- An environment whose `subprocess.run` always completes normally. -/
def procOk : String → ProcOutcome := fun _ => ⟨false, 0, "", ""⟩

/-- An environment whose `subprocess.run` always raises on start (e.g. the
executable is missing). -/
def procRaises : String → ProcOutcome := fun _ => ⟨true, 0, "", ""⟩

def rawGood1 : RawCreative :=
  ⟨some "11111", some "1001", some "2025-10-18 00:00:00",
   some "2025-10-18 00:00:30", some "11111", some "Good One"⟩

/-- A malformed raw descriptor: the `station_id` key is absent. -/
def rawBad : RawCreative :=
  ⟨some "22222", none, some "2025-10-18 00:00:00",
   some "2025-10-18 00:00:30", some "22222", some "Bad"⟩

def rawGood2 : RawCreative :=
  ⟨some "33333", some "1001", some "2025-10-18 00:00:00",
   some "2025-10-18 00:00:30", some "33333", some "Good Two"⟩

/-- C1: for every job list of size N and configured batch size B > 0, the
Batch Scheduler partitions the list into exactly ceil(N/B) batches (numbered
from 1 by `enumerate(batches, 1)`) such that the batch sizes sum to N, every
batch except possibly the last has size exactly B, and the concatenation of
the batches in order equals the input job list. -/
theorem spec_C1 (B : Nat) (creatives : List Creative) (hB : 0 < B) :
    (chunkBatches B creatives).length = (creatives.length + B - 1) / B ∧
    ((chunkBatches B creatives).map List.length).sum = creatives.length ∧
    (∀ b ∈ (chunkBatches B creatives).dropLast, b.length = B) ∧
    (chunkBatches B creatives).flatten = creatives := by
  have hB0 : B ≠ 0 := Nat.pos_iff_ne_zero.mp hB
  exact ⟨chunkBatches_length B creatives hB0, chunkBatches_sum B creatives hB0,
    chunkBatches_sizes B creatives hB0, chunkBatches_flatten B creatives hB0⟩

theorem spec_C1_witness :
    0 < 2 ∧
    ((chunkBatches 2 sampleCreatives).length = (sampleCreatives.length + 2 - 1) / 2 ∧
     ((chunkBatches 2 sampleCreatives).map List.length).sum = sampleCreatives.length ∧
     (∀ b ∈ (chunkBatches 2 sampleCreatives).dropLast, b.length = 2) ∧
     (chunkBatches 2 sampleCreatives).flatten = sampleCreatives) :=
  ⟨by decide, spec_C1 2 sampleCreatives (by decide)⟩

/-- C2: with unique job identifiers, after the main batch pass and the retry
pass the final Run Result — the final success list paired with the
still-failed list — contains exactly one outcome per job identifier: the
two collections together are a permutation of the input ids (none missing,
none duplicated), and no id is recorded both succeeded and failed. -/
theorem spec_C2 (fs fs2 : FS) (procEnv : String → ProcOutcome)
    (creatives : List Creative) (target_folder ini_folder : String)
    (hNodup : (creatives.map (fun c => c.aircheck_id)).Nodup) :
    List.Perm
      ((final_outcomes fs fs2 procEnv creatives target_folder ini_folder).1 ++
        (final_outcomes fs fs2 procEnv creatives target_folder ini_folder).2.map
          (fun c => c.aircheck_id))
      (creatives.map (fun c => c.aircheck_id)) ∧
    ((final_outcomes fs fs2 procEnv creatives target_folder ini_folder).1 ++
      (final_outcomes fs fs2 procEnv creatives target_folder ini_folder).2.map
        (fun c => c.aircheck_id)).Nodup ∧
    (∀ i ∈ (final_outcomes fs fs2 procEnv creatives target_folder ini_folder).1,
      i ∉ (final_outcomes fs fs2 procEnv creatives target_folder ini_folder).2.map
        (fun c => c.aircheck_id)) := by
  refine ⟨final_outcomes_perm fs fs2 procEnv creatives target_folder ini_folder hNodup,
    final_outcomes_nodup fs fs2 procEnv creatives target_folder ini_folder hNodup, ?_⟩
  have hd := List.disjoint_of_nodup_append
    (final_outcomes_nodup fs fs2 procEnv creatives target_folder ini_folder hNodup)
  exact fun i hi hmem => hd hi hmem

theorem spec_C2_witness :
    (sampleCreatives.map (fun c => c.aircheck_id)).Nodup ∧
    (List.Perm
      ((final_outcomes fsEmpty fsFull procOk sampleCreatives "t" "i").1 ++
        (final_outcomes fsEmpty fsFull procOk sampleCreatives "t" "i").2.map
          (fun c => c.aircheck_id))
      (sampleCreatives.map (fun c => c.aircheck_id)) ∧
    ((final_outcomes fsEmpty fsFull procOk sampleCreatives "t" "i").1 ++
      (final_outcomes fsEmpty fsFull procOk sampleCreatives "t" "i").2.map
        (fun c => c.aircheck_id)).Nodup ∧
    (∀ i ∈ (final_outcomes fsEmpty fsFull procOk sampleCreatives "t" "i").1,
      i ∉ (final_outcomes fsEmpty fsFull procOk sampleCreatives "t" "i").2.map
        (fun c => c.aircheck_id))) :=
  ⟨by decide, spec_C2 fsEmpty fsFull procOk sampleCreatives "t" "i" (by decide)⟩

/-- C3: after the bounded wait, the Completion Watcher probes every job of
the batch exactly once and classifies it solely by the Artifact Probe: the
successful and failed lists together are a permutation of the batch's ids, a
job is successful iff `<id>_pcm.wav` exists in the target folder at probe
time and failed iff it does not, the watcher appends exactly these lists,
and the futures' settled values never influence the outcome. -/
theorem spec_C3 (fs : FS) (batch_creatives : List Creative)
    (futures futures2 : List (Option String))
    (all_successful all_failed : List String) (target_folder : String) :
    List.Perm
      ((check_batch_success fs (batch_creatives.map (fun c => c.aircheck_id))
          target_folder).1 ++
        (check_batch_success fs (batch_creatives.map (fun c => c.aircheck_id))
          target_folder).2)
      (batch_creatives.map (fun c => c.aircheck_id)) ∧
    (∀ i, i ∈ (check_batch_success fs
        (batch_creatives.map (fun c => c.aircheck_id)) target_folder).1 ↔
      i ∈ batch_creatives.map (fun c => c.aircheck_id) ∧
        fs (pcm_file target_folder i) = true) ∧
    (∀ i, i ∈ (check_batch_success fs
        (batch_creatives.map (fun c => c.aircheck_id)) target_folder).2 ↔
      i ∈ batch_creatives.map (fun c => c.aircheck_id) ∧
        fs (pcm_file target_folder i) = false) ∧
    delayed_batch_check_and_log fs batch_creatives futures all_successful
        all_failed target_folder =
      (all_successful ++ (check_batch_success fs
          (batch_creatives.map (fun c => c.aircheck_id)) target_folder).1,
       all_failed ++ (check_batch_success fs
          (batch_creatives.map (fun c => c.aircheck_id)) target_folder).2) ∧
    delayed_batch_check_and_log fs batch_creatives futures all_successful
        all_failed target_folder =
      delayed_batch_check_and_log fs batch_creatives futures2 all_successful
        all_failed target_folder := by
  rw [check_batch_success_eq]
  refine ⟨List.filter_append_perm _ _, ?_, ?_, ?_, rfl⟩
  · intro i
    simp [List.mem_filter]
  · intro i
    simp [List.mem_filter]
  · simp [delayed_batch_check_and_log, check_batch_success_eq]

/-- C10: the single-job launch function is total at its interface: it
returns the given job identifier unchanged or `none`, never propagates an
exception (it is a total function of the modelled process behaviour), and
its return value never depends on the launched process's exit status or
captured output. -/
theorem spec_C10 (proc proc2 : ProcOutcome) (aircheck_id ini_folder : String)
    (h : proc.raisesOnStart = proc2.raisesOnStart) :
    (run_single_getmedia proc aircheck_id ini_folder = some aircheck_id ∨
      run_single_getmedia proc aircheck_id ini_folder = none) ∧
    run_single_getmedia proc aircheck_id ini_folder =
      run_single_getmedia proc2 aircheck_id ini_folder ∧
    (proc.raisesOnStart = false →
      run_single_getmedia proc aircheck_id ini_folder = some aircheck_id) := by
  unfold run_single_getmedia
  rw [h]
  cases h2 : proc2.raisesOnStart <;> simp [h, h2]

theorem spec_C10_witness :
    (ProcOutcome.raisesOnStart ⟨false, 0, "", ""⟩ =
      ProcOutcome.raisesOnStart ⟨false, 1, "out", "err"⟩) ∧
    ((run_single_getmedia ⟨false, 0, "", ""⟩ "12345" "inis" = some "12345" ∨
      run_single_getmedia ⟨false, 0, "", ""⟩ "12345" "inis" = none) ∧
    run_single_getmedia ⟨false, 0, "", ""⟩ "12345" "inis" =
      run_single_getmedia ⟨false, 1, "out", "err"⟩ "12345" "inis" ∧
    (ProcOutcome.raisesOnStart ⟨false, 0, "", ""⟩ = false →
      run_single_getmedia ⟨false, 0, "", ""⟩ "12345" "inis" = some "12345")) :=
  ⟨rfl, spec_C10 ⟨false, 0, "", ""⟩ ⟨false, 1, "out", "err"⟩ "12345" "inis" rfl⟩

theorem main_trace_split_writes (fs : FS) (procEnv : String → ProcOutcome)
    (creatives : List Creative) (target_folder ini_folder : String) :
    main_trace fs procEnv creatives target_folder ini_folder =
      (creatives.map (fun c => Ev.writeIni c.aircheck_id)) ++
      (sched_events 1 (chunkBatches BATCH_SIZE creatives) ++
        Ev.joinWatchers :: Ev.shutdownExecutors ::
          retry_events (creatives.filter
            (fun c => (run_main_pass fs procEnv creatives target_folder
              ini_folder).2.contains c.aircheck_id))) := by
  unfold main_trace
  rw [List.append_assoc]

theorem main_trace_split_retries (fs : FS) (procEnv : String → ProcOutcome)
    (creatives : List Creative) (target_folder ini_folder : String) :
    main_trace fs procEnv creatives target_folder ini_folder =
      ((creatives.map (fun c => Ev.writeIni c.aircheck_id)) ++
        sched_events 1 (chunkBatches BATCH_SIZE creatives) ++
        [Ev.joinWatchers, Ev.shutdownExecutors]) ++
      retry_events (creatives.filter
        (fun c => (run_main_pass fs procEnv creatives target_folder
          ini_folder).2.contains c.aircheck_id)) := by
  unfold main_trace
  simp [List.append_assoc]

theorem writes_all_writeIni (creatives : List Creative) :
    ∀ e ∈ creatives.map (fun c => Ev.writeIni c.aircheck_id),
      Ev.isWriteIni e = true := by
  intro e he
  obtain ⟨c, _, rfl⟩ := List.mem_map.mp he
  rfl

theorem writes_no_submitJob (creatives : List Creative) :
    ∀ e ∈ creatives.map (fun c => Ev.writeIni c.aircheck_id),
      Ev.isSubmitJob e = false := by
  intro e he
  obtain ⟨c, _, rfl⟩ := List.mem_map.mp he
  rfl

/-- All the ini writes of the run: exactly one per input creative, in input
order. -/
theorem main_trace_filter_writeIni (fs : FS) (procEnv : String → ProcOutcome)
    (creatives : List Creative) (target_folder ini_folder : String) :
    (main_trace fs procEnv creatives target_folder ini_folder).filter Ev.isWriteIni =
      creatives.map (fun c => Ev.writeIni c.aircheck_id) := by
  rw [main_trace_split_writes, List.filter_append]
  have h1 : (creatives.map (fun c => Ev.writeIni c.aircheck_id)).filter
      Ev.isWriteIni = creatives.map (fun c => Ev.writeIni c.aircheck_id) :=
    List.filter_eq_self.mpr (writes_all_writeIni creatives)
  have h2 : (sched_events 1 (chunkBatches BATCH_SIZE creatives) ++
      Ev.joinWatchers :: Ev.shutdownExecutors ::
        retry_events (creatives.filter
          (fun c => (run_main_pass fs procEnv creatives target_folder
            ini_folder).2.contains c.aircheck_id))).filter Ev.isWriteIni = [] := by
    rw [List.filter_eq_nil_iff]
    intro e he
    rcases List.mem_append.mp he with hs | ht
    · rw [sched_events_no_writeIni 1 _ e hs]
      exact Bool.false_ne_true
    · rcases List.mem_cons.mp ht with rfl | ht2
      · exact fun h => Bool.false_ne_true h
      · rcases List.mem_cons.mp ht2 with rfl | ht3
        · exact fun h => Bool.false_ne_true h
        · rw [retry_events_no_writeIni _ e ht3]
          exact Bool.false_ne_true
  rw [h1, h2, List.append_nil]

/-- C8: in the scheduler thread's program order, every per-job configuration
file write happens strictly before any job submission — hence before any
launch of the external tool, which a submission triggers — and the writes
are exactly one per input job, performed synchronously at the head of the
trace. -/
theorem spec_C8 (fs : FS) (procEnv : String → ProcOutcome)
    (creatives : List Creative) (target_folder ini_folder : String) :
    (∀ (i j : Nat) (e1 e2 : Ev),
      (main_trace fs procEnv creatives target_folder ini_folder)[i]? = some e1 →
      (main_trace fs procEnv creatives target_folder ini_folder)[j]? = some e2 →
      Ev.isWriteIni e1 = true → Ev.isSubmitJob e2 = true → i < j) ∧
    (main_trace fs procEnv creatives target_folder ini_folder).filter
        Ev.isWriteIni =
      creatives.map (fun c => Ev.writeIni c.aircheck_id) := by
  constructor
  · intro i j e1 e2 h1 h2 hw hs
    rw [main_trace_split_writes] at h1 h2
    refine index_order_of_split Ev.isWriteIni Ev.isSubmitJob _ _ ?_ ?_ i j e1 e2
      h1 h2 hw hs
    · intro e he
      rcases List.mem_append.mp he with hsch | ht
      · exact sched_events_no_writeIni 1 _ e hsch
      · rcases List.mem_cons.mp ht with rfl | ht2
        · rfl
        · rcases List.mem_cons.mp ht2 with rfl | ht3
          · rfl
          · exact retry_events_no_writeIni _ e ht3
    · exact writes_no_submitJob creatives
  · exact main_trace_filter_writeIni fs procEnv creatives target_folder ini_folder

/-- The retry loop launches each failed creative exactly once, in list
order. -/
theorem retry_events_filter_launch (l : List Creative) :
    (retry_events l).filter Ev.isRetryLaunch =
      l.map (fun c => Ev.retryLaunch c.aircheck_id) := by
  induction l with
  | nil => rfl
  | cons c rest ih =>
    simp only [retry_events, List.filter_cons]
    show (Ev.retryLaunch c.aircheck_id :: List.filter Ev.isRetryLaunch
      (Ev.retrySleep 2 :: Ev.retryProbe c.aircheck_id :: retry_events rest)) = _
    simp only [List.filter_cons]
    show Ev.retryLaunch c.aircheck_id ::
      (retry_events rest).filter Ev.isRetryLaunch = _
    rw [ih, List.map_cons]

/-- Each retry is immediately followed by the fixed 2-second pause and then
the re-probe for the same job: retries are serial, one at a time. -/
theorem retry_events_step (l : List Creative) (i : Nat) (a : String)
    (h : (retry_events l)[i]? = some (Ev.retryLaunch a)) :
    (retry_events l)[i + 1]? = some (Ev.retrySleep 2) ∧
    (retry_events l)[i + 2]? = some (Ev.retryProbe a) := by
  induction l generalizing i with
  | nil => simp [retry_events] at h
  | cons c rest ih =>
    match i with
    | 0 =>
      have ha : Ev.retryLaunch c.aircheck_id = Ev.retryLaunch a := by
        simpa [retry_events] using h
      have ha2 : c.aircheck_id = a := by injection ha
      subst ha2
      refine ⟨?_, ?_⟩ <;> simp [retry_events]
    | 1 => simp [retry_events] at h
    | 2 => simp [retry_events] at h
    | (n + 3) =>
      have h2 : (retry_events rest)[n]? = some (Ev.retryLaunch a) := by
        simpa [retry_events] using h
      have := ih n h2
      constructor
      · show (retry_events (c :: rest))[n + 4]? = _
        simpa [retry_events] using this.1
      · show (retry_events (c :: rest))[n + 5]? = _
        simpa [retry_events] using this.2

theorem mem_retry_events_launch (l : List Creative) (c : Creative)
    (hc : c ∈ l) : Ev.retryLaunch c.aircheck_id ∈ retry_events l := by
  induction l with
  | nil => simp at hc
  | cons d rest ih =>
    rcases List.mem_cons.mp hc with rfl | hmem
    · exact List.mem_cons_self _ _
    · simp only [retry_events, List.mem_cons]
      exact Or.inr (Or.inr (Or.inr (ih hmem)))

/-- C4: the Retry Manager runs strictly after all batches have finished (in
the scheduler's trace every job submission, and the join of all watcher
threads, precedes every retry launch), performs exactly one serial retry per
job recorded failed in the main pass (one launch per failed job in order,
each launch immediately followed by its fixed 2-second pause and its own
re-probe before the next launch), and returns exactly the subset of retried
jobs whose artifact is still absent at the re-probe — which is exactly the
run's terminal failure list. -/
theorem spec_C4 (fs fs2 : FS) (procEnv : String → ProcOutcome)
    (creatives failed : List Creative) (target_folder ini_folder : String)
    (hfailed : failed = creatives.filter
      (fun c => (run_main_pass fs procEnv creatives target_folder
        ini_folder).2.contains c.aircheck_id)) :
    (∀ (i j : Nat) (e1 e2 : Ev),
      (main_trace fs procEnv creatives target_folder ini_folder)[i]? = some e1 →
      (main_trace fs procEnv creatives target_folder ini_folder)[j]? = some e2 →
      (Ev.isSubmitJob e1 = true ∨ Ev.isJoinWatchers e1 = true) →
      Ev.isRetryLaunch e2 = true → i < j) ∧
    (retry_events failed).filter Ev.isRetryLaunch =
      failed.map (fun c => Ev.retryLaunch c.aircheck_id) ∧
    (∀ (i : Nat) (a : String),
      (retry_events failed)[i]? = some (Ev.retryLaunch a) →
      (retry_events failed)[i + 1]? = some (Ev.retrySleep 2) ∧
      (retry_events failed)[i + 2]? = some (Ev.retryProbe a)) ∧
    (retry_failed_creatives fs2 failed ini_folder target_folder).2 =
      failed.filter (fun c => !fs2 (pcm_file target_folder c.aircheck_id)) ∧
    (final_outcomes fs fs2 procEnv creatives target_folder ini_folder).2 =
      (retry_failed_creatives fs2 failed ini_folder target_folder).2 := by
  refine ⟨?_, retry_events_filter_launch failed, retry_events_step failed, ?_, ?_⟩
  · intro i j e1 e2 h1 h2 hP hQ
    rw [main_trace_split_retries] at h1 h2
    refine index_order_of_split
      (fun e => Ev.isSubmitJob e || Ev.isJoinWatchers e) Ev.isRetryLaunch _ _
      ?_ ?_ i j e1 e2 h1 h2 ?_ hQ
    · intro e he
      show (e.isSubmitJob || e.isJoinWatchers) = false
      rw [retry_events_no_submitJob _ e he, Bool.false_or]
      rw [retry_events_shape] at he
      simp only [List.mem_flatten, List.mem_map] at he
      obtain ⟨evs, ⟨c, _, rfl⟩, hmem⟩ := he
      simp only [List.mem_cons, List.not_mem_nil, or_false] at hmem
      rcases hmem with rfl | rfl | rfl <;> rfl
    · intro e he
      rcases List.mem_append.mp he with hws | hjs
      · rcases List.mem_append.mp hws with hw | hsch
        · obtain ⟨c, _, rfl⟩ := List.mem_map.mp hw
          rfl
        · exact sched_events_no_retryLaunch 1 _ e hsch
      · rcases List.mem_cons.mp hjs with rfl | hjs2
        · rfl
        · rcases List.mem_cons.mp hjs2 with rfl | hjs3
          · rfl
          · simp at hjs3
    · show (e1.isSubmitJob || e1.isJoinWatchers) = true
      rcases hP with hs | hj
      · rw [hs, Bool.true_or]
      · rw [hj, Bool.or_true]
  · rw [retry_failed_creatives_eq]
  · rw [hfailed]
    rfl

/-- The failed set of a concrete all-failing sample run. -/
def failedW : List Creative :=
  sampleCreatives.filter
    (fun c => (run_main_pass fsEmpty procOk sampleCreatives "t" "i").2.contains
      c.aircheck_id)

theorem spec_C4_witness :
    (failedW = sampleCreatives.filter
      (fun c => (run_main_pass fsEmpty procOk sampleCreatives "t" "i").2.contains
        c.aircheck_id)) ∧
    ((∀ (i j : Nat) (e1 e2 : Ev),
      (main_trace fsEmpty procOk sampleCreatives "t" "i")[i]? = some e1 →
      (main_trace fsEmpty procOk sampleCreatives "t" "i")[j]? = some e2 →
      (Ev.isSubmitJob e1 = true ∨ Ev.isJoinWatchers e1 = true) →
      Ev.isRetryLaunch e2 = true → i < j) ∧
    (retry_events failedW).filter Ev.isRetryLaunch =
      failedW.map (fun c => Ev.retryLaunch c.aircheck_id) ∧
    (∀ (i : Nat) (a : String),
      (retry_events failedW)[i]? = some (Ev.retryLaunch a) →
      (retry_events failedW)[i + 1]? = some (Ev.retrySleep 2) ∧
      (retry_events failedW)[i + 2]? = some (Ev.retryProbe a)) ∧
    (retry_failed_creatives fsFull failedW "i" "t").2 =
      failedW.filter (fun c => !fsFull (pcm_file "t" c.aircheck_id)) ∧
    (final_outcomes fsEmpty fsFull procOk sampleCreatives "t" "i").2 =
      (retry_failed_creatives fsFull failedW "i" "t").2) :=
  ⟨rfl, spec_C4 fsEmpty fsFull procOk sampleCreatives failedW "t" "i" rfl⟩

/-- C5: when the external fetch invocation cannot be started at all (the
launch call raises), the launcher returns `none` instead of propagating the
error, the run goes on, and — the artifact being absent — the job is
recorded failed by the probe exactly as a timed-out job would be, which
makes it eligible for retry: its retry launch appears in the run's trace. -/
theorem spec_C5 (fs : FS) (procEnv : String → ProcOutcome)
    (creatives : List Creative) (c : Creative) (target_folder ini_folder : String)
    (hc : c ∈ creatives)
    (hraises : (procEnv c.aircheck_id).raisesOnStart = true)
    (habsent : fs (pcm_file target_folder c.aircheck_id) = false) :
    run_single_getmedia (procEnv c.aircheck_id) c.aircheck_id ini_folder = none ∧
    c.aircheck_id ∈ (run_main_pass fs procEnv creatives target_folder ini_folder).2 ∧
    c.aircheck_id ∉ (run_main_pass fs procEnv creatives target_folder ini_folder).1 ∧
    Ev.retryLaunch c.aircheck_id ∈
      main_trace fs procEnv creatives target_folder ini_folder := by
  have hmem : c.aircheck_id ∈ creatives.map (fun c => c.aircheck_id) :=
    List.mem_map_of_mem _ hc
  refine ⟨by simp [run_single_getmedia, hraises], ?_, ?_, ?_⟩
  · rw [run_main_pass_eq]
    simp [List.mem_filter, hmem, habsent]
  · rw [run_main_pass_eq]
    simp [List.mem_filter, habsent]
  · unfold main_trace
    refine List.mem_append.mpr (Or.inr ?_)
    refine List.mem_cons.mpr (Or.inr ?_)
    refine List.mem_cons.mpr (Or.inr ?_)
    apply mem_retry_events_launch
    rw [List.mem_filter]
    refine ⟨hc, ?_⟩
    rw [run_main_pass_eq]
    simp [List.elem_eq_mem, List.mem_filter, hmem, habsent]

theorem spec_C5_witness :
    (mkCreative "12345" "Ad One" ∈ sampleCreatives ∧
     (procRaises (mkCreative "12345" "Ad One").aircheck_id).raisesOnStart = true ∧
     fsEmpty (pcm_file "t" (mkCreative "12345" "Ad One").aircheck_id) = false) ∧
    (run_single_getmedia (procRaises (mkCreative "12345" "Ad One").aircheck_id)
        (mkCreative "12345" "Ad One").aircheck_id "i" = none ∧
     (mkCreative "12345" "Ad One").aircheck_id ∈
       (run_main_pass fsEmpty procRaises sampleCreatives "t" "i").2 ∧
     (mkCreative "12345" "Ad One").aircheck_id ∉
       (run_main_pass fsEmpty procRaises sampleCreatives "t" "i").1 ∧
     Ev.retryLaunch (mkCreative "12345" "Ad One").aircheck_id ∈
       main_trace fsEmpty procRaises sampleCreatives "t" "i") :=
  ⟨⟨by decide, rfl, rfl⟩,
   spec_C5 fsEmpty procRaises sampleCreatives (mkCreative "12345" "Ad One")
     "t" "i" (by decide) rfl rfl⟩

/-- C6 counterexample: on a list with one malformed descriptor between two
well-formed ones, the load stage does not exclude the malformed job and
proceed with the rest — the `KeyError` aborts the whole run, so no batch
plan exists at all (in particular not the plan over the two well-formed
jobs the claim promises). -/
theorem spec_C6_counterexample :
    load_and_plan [rawGood1, rawBad, rawGood2] =
      Except.error "KeyError: station_id" ∧
    load_and_plan [rawGood1, rawBad, rawGood2] ≠
      Except.ok (chunkBatches BATCH_SIZE [rawGood1, rawGood2]) := by
  have h1 : load_and_plan [rawGood1, rawBad, rawGood2] =
      Except.error "KeyError: station_id" := rfl
  exact ⟨h1, by rw [h1]; simp⟩

/-- C6 amended: a job descriptor missing a field that ini-creation reads is
not excluded from the batch plan; instead the first `KeyError` aborts the
entire run before any batch exists — the error is caught and reported by the
top-level handler (not silently dropped), but the remaining well-formed jobs
are not processed either.  When every descriptor is well formed the full
batch plan over all jobs is produced. -/
theorem spec_C6 (creatives : List RawCreative)
    (h : ∃ c ∈ creatives, wellFormedRaw c = false) :
    (∃ msg, load_and_plan creatives = Except.error msg) ∧
    ∀ plan, load_and_plan creatives ≠ Except.ok plan := by
  obtain ⟨msg, hmsg⟩ := create_all_ini_files_error creatives h
  have herr : load_and_plan creatives = Except.error msg := by
    simp [load_and_plan, hmsg, Bind.bind, Except.bind]
  refine ⟨⟨msg, herr⟩, ?_⟩
  intro plan hplan
  rw [herr] at hplan
  exact Except.noConfusion hplan

theorem spec_C6_witness :
    (∃ c ∈ [rawGood1, rawBad, rawGood2], wellFormedRaw c = false) ∧
    ((∃ msg, load_and_plan [rawGood1, rawBad, rawGood2] = Except.error msg) ∧
     ∀ plan, load_and_plan [rawGood1, rawBad, rawGood2] ≠ Except.ok plan) :=
  ⟨⟨rawBad, by decide⟩, spec_C6 [rawGood1, rawBad, rawGood2] ⟨rawBad, by decide⟩⟩

/-- All descriptors well formed: the plan over the full list is produced
(the complement direction of the amended C6, kept as supporting fact). -/
theorem load_and_plan_ok (creatives : List RawCreative)
    (h : ∀ c ∈ creatives, wellFormedRaw c = true) :
    load_and_plan creatives = Except.ok (chunkBatches BATCH_SIZE creatives) := by
  obtain ⟨files, hfiles⟩ := create_all_ini_files_ok creatives h
  simp [load_and_plan, hfiles, Bind.bind, Except.bind]

/-- C7 counterexample: a run of six jobs that all fail terminally.  The
final summary reports a failure count of 6 but enumerates only
`still_failed[:5]` — the sixth terminal failure (`id6`, `name6`) is a
terminal failure of the run yet is omitted from the enumeration, only being
counted in the "... and 1 more" line. -/
theorem spec_C7_counterexample :
    (run_summary fsEmpty fsEmpty procOk sampleCreatives6 "t" "i").failed_after_retry = 6 ∧
    (run_summary fsEmpty fsEmpty procOk sampleCreatives6 "t" "i").listed_failures.length = 5 ∧
    mkCreative "id6" "name6" ∈
      (final_outcomes fsEmpty fsEmpty procOk sampleCreatives6 "t" "i").2 ∧
    ((mkCreative "id6" "name6").aircheck_id,
      (mkCreative "id6" "name6").creative_name) ∉
      (run_summary fsEmpty fsEmpty procOk sampleCreatives6 "t" "i").listed_failures := by
  exact ⟨rfl, rfl, by decide, by decide⟩

/-- C7 amended: the final summary always reports the total, succeeded and
failed counts correctly (succeeded and failed partition the total), but it
enumerates only the first five terminal failures by identifier and display
name, printing just a count for the remainder; the enumeration is complete
exactly when at most five jobs failed terminally. -/
theorem spec_C7 (fs fs2 : FS) (procEnv : String → ProcOutcome)
    (creatives : List Creative) (target_folder ini_folder : String)
    (hNodup : (creatives.map (fun c => c.aircheck_id)).Nodup) :
    (run_summary fs fs2 procEnv creatives target_folder ini_folder).total =
      creatives.length ∧
    (run_summary fs fs2 procEnv creatives target_folder ini_folder).succeeded =
      (final_outcomes fs fs2 procEnv creatives target_folder ini_folder).1.length ∧
    (run_summary fs fs2 procEnv creatives target_folder ini_folder).failed_after_retry =
      (final_outcomes fs fs2 procEnv creatives target_folder ini_folder).2.length ∧
    (run_summary fs fs2 procEnv creatives target_folder ini_folder).succeeded +
      (run_summary fs fs2 procEnv creatives target_folder ini_folder).failed_after_retry =
      creatives.length ∧
    (run_summary fs fs2 procEnv creatives target_folder ini_folder).listed_failures =
      ((final_outcomes fs fs2 procEnv creatives target_folder ini_folder).2.take 5).map
        (fun c => (c.aircheck_id, c.creative_name)) ∧
    ((final_outcomes fs fs2 procEnv creatives target_folder ini_folder).2.length ≤ 5 →
      (run_summary fs fs2 procEnv creatives target_folder ini_folder).listed_failures =
        (final_outcomes fs fs2 procEnv creatives target_folder ini_folder).2.map
          (fun c => (c.aircheck_id, c.creative_name))) := by
  have hlen : (final_outcomes fs fs2 procEnv creatives target_folder ini_folder).1.length +
      (final_outcomes fs fs2 procEnv creatives target_folder ini_folder).2.length =
      creatives.length := by
    have hp := (final_outcomes_perm fs fs2 procEnv creatives target_folder
      ini_folder hNodup).length_eq
    simpa using hp
  refine ⟨rfl, rfl, rfl, ?_, rfl, ?_⟩
  · show (final_outcomes fs fs2 procEnv creatives target_folder ini_folder).1.length +
      (final_outcomes fs fs2 procEnv creatives target_folder ini_folder).2.length = _
    exact hlen
  · intro hle
    show ((final_outcomes fs fs2 procEnv creatives target_folder
      ini_folder).2.take 5).map (fun c => (c.aircheck_id, c.creative_name)) = _
    rw [List.take_of_length_le hle]

theorem spec_C7_witness :
    (sampleCreatives.map (fun c => c.aircheck_id)).Nodup ∧
    ((run_summary fsEmpty fsFull procOk sampleCreatives "t" "i").total =
      sampleCreatives.length ∧
    (run_summary fsEmpty fsFull procOk sampleCreatives "t" "i").succeeded =
      (final_outcomes fsEmpty fsFull procOk sampleCreatives "t" "i").1.length ∧
    (run_summary fsEmpty fsFull procOk sampleCreatives "t" "i").failed_after_retry =
      (final_outcomes fsEmpty fsFull procOk sampleCreatives "t" "i").2.length ∧
    (run_summary fsEmpty fsFull procOk sampleCreatives "t" "i").succeeded +
      (run_summary fsEmpty fsFull procOk sampleCreatives "t" "i").failed_after_retry =
      sampleCreatives.length ∧
    (run_summary fsEmpty fsFull procOk sampleCreatives "t" "i").listed_failures =
      ((final_outcomes fsEmpty fsFull procOk sampleCreatives "t" "i").2.take 5).map
        (fun c => (c.aircheck_id, c.creative_name)) ∧
    ((final_outcomes fsEmpty fsFull procOk sampleCreatives "t" "i").2.length ≤ 5 →
      (run_summary fsEmpty fsFull procOk sampleCreatives "t" "i").listed_failures =
        (final_outcomes fsEmpty fsFull procOk sampleCreatives "t" "i").2.map
          (fun c => (c.aircheck_id, c.creative_name)))) :=
  ⟨by decide, spec_C7 fsEmpty fsFull procOk sampleCreatives "t" "i" (by decide)⟩

/-- The entries contributed by all watchers together are exactly all the
batches' job ids. -/
theorem watchers_flatten_contents (fs : FS) (target_folder : String)
    (batches : List (List Creative)) :
    List.Perm
      (((batches.map (fun b => watcher_ops fs b target_folder)).flatten.map
        AggOp.contents).flatten)
      (batches.flatten.map (fun c => c.aircheck_id)) := by
  induction batches with
  | nil => simp
  | cons b rest ih =>
    simp only [List.map_cons, List.flatten_cons, List.map_append,
      List.flatten_append]
    exact List.Perm.append (watcher_ops_contents fs b target_folder) ih

/-- C9: for N Completion Watchers recording outcomes for batches with
pairwise disjoint job ids into the shared lists, any interleaving of their
atomic `extend` calls loses no update: the final aggregator state holds all
N batches' outcomes in full — a permutation of all job ids, each exactly
once, N·batch_size entries in total. -/
theorem spec_C9 (fs : FS) (target_folder : String)
    (batches : List (List Creative)) (sched : List AggOp)
    (hsched : List.Perm sched
      ((batches.map (fun b => watcher_ops fs b target_folder)).flatten))
    (hsize : ∀ b ∈ batches, b.length = BATCH_SIZE)
    (hdisj : (batches.flatten.map (fun c => c.aircheck_id)).Nodup) :
    List.Perm ((run_schedule sched).1 ++ (run_schedule sched).2)
      (batches.flatten.map (fun c => c.aircheck_id)) ∧
    ((run_schedule sched).1 ++ (run_schedule sched).2).Nodup ∧
    (run_schedule sched).1.length + (run_schedule sched).2.length =
      batches.length * BATCH_SIZE := by
  have hperm : List.Perm ((run_schedule sched).1 ++ (run_schedule sched).2)
      (batches.flatten.map (fun c => c.aircheck_id)) := by
    refine (run_schedule_content sched).trans ?_
    refine List.Perm.trans ?_ (watchers_flatten_contents fs target_folder batches)
    exact (hsched.map AggOp.contents).join
  refine ⟨hperm, hperm.nodup_iff.mpr hdisj, ?_⟩
  have hlenflat : batches.flatten.length = batches.length * BATCH_SIZE := by
    rw [List.length_flatten]
    have hrep : batches.map List.length =
        List.replicate batches.length BATCH_SIZE := by
      apply List.eq_replicate.mpr
      refine ⟨by simp, ?_⟩
      intro x hx
      obtain ⟨b, hb, rfl⟩ := List.mem_map.mp hx
      exact hsize b hb
    rw [hrep, List.sum_replicate, smul_eq_mul]
  have hle := hperm.length_eq
  simp only [List.length_append, List.length_map] at hle
  rw [hle, hlenflat]

def sampleBatchA : List Creative :=
  (List.range 10).map (fun n => mkCreative ("A" ++ toString n) "ad A")

def sampleBatchB : List Creative :=
  (List.range 10).map (fun n => mkCreative ("B" ++ toString n) "ad B")

/-- One concrete interleaving of two watchers' aggregator calls. -/
def sampleSched : List AggOp :=
  ([sampleBatchA, sampleBatchB].map (fun b => watcher_ops fsFull b "t")).flatten

theorem spec_C9_witness :
    (List.Perm sampleSched
      (([sampleBatchA, sampleBatchB].map (fun b => watcher_ops fsFull b "t")).flatten) ∧
     (∀ b ∈ [sampleBatchA, sampleBatchB], b.length = BATCH_SIZE) ∧
     ([sampleBatchA, sampleBatchB].flatten.map (fun c => c.aircheck_id)).Nodup) ∧
    (List.Perm ((run_schedule sampleSched).1 ++ (run_schedule sampleSched).2)
      ([sampleBatchA, sampleBatchB].flatten.map (fun c => c.aircheck_id)) ∧
     ((run_schedule sampleSched).1 ++ (run_schedule sampleSched).2).Nodup ∧
     (run_schedule sampleSched).1.length + (run_schedule sampleSched).2.length =
       [sampleBatchA, sampleBatchB].length * BATCH_SIZE) :=
  ⟨⟨List.Perm.refl _, by decide, by decide⟩,
   spec_C9 fsFull "t" [sampleBatchA, sampleBatchB] sampleSched
     (List.Perm.refl _) (by decide) (by decide)⟩

end SpotAudio
